import Mathlib

set_option linter.unusedSectionVars false

/-!
Shallow embedding of `src/simple-vector/simple_vector.h`, a growable
contiguous sequence container (`SimpleVector<Type>`).

The backing storage (`ArrayPtr<Type>`, an exclusive-ownership buffer of a
fixed number of default-constructed slots) is modelled as a `List α` whose
length is the allocated capacity.  A `SimpleVector` is its `size_`,
`capacity_` and buffer `data_`; the container invariant `Wf` states
`size_ ≤ capacity_` and that the buffer holds exactly `capacity_` slots.
C++ iterators are pointers into the buffer; they are modelled as indices.
-/

namespace SimpleVec

/-- The tagged construction option `ReserveProxyObj` (simple_vector.h, lines 12-22):
wraps the capacity to pre-allocate. -/
structure ReserveProxyObj where
  reserved_capacity : Nat

/-- `ReserveProxyObj::GetCapacity` (line 17). -/
def ReserveProxyObj.GetCapacity (obj : ReserveProxyObj) : Nat :=
  obj.reserved_capacity

/-- Free function `Reserve(capacity_to_reserve)` (line 24). -/
def mkReserveProxy (capacity_to_reserve : Nat) : ReserveProxyObj :=
  ReserveProxyObj.mk capacity_to_reserve

/-- `SimpleVector<Type>`: logical size, capacity, and the owned buffer
(`data_` holds one entry per allocated slot). -/
structure SimpleVector (α : Type) where
  size_ : Nat
  capacity_ : Nat
  data_ : List α
deriving Repr, DecidableEq

variable {α : Type} [Inhabited α]

/-- Container invariant: `size_ ≤ capacity_` and the buffer has exactly
`capacity_` slots. -/
def SimpleVector.Wf (v : SimpleVector α) : Prop :=
  v.size_ ≤ v.capacity_ ∧ v.data_.length = v.capacity_

instance (v : SimpleVector α) : Decidable v.Wf := by
  unfold SimpleVector.Wf; infer_instance

/-- Default constructor `SimpleVector()` (line 34): `size_ = 0`,
`capacity_ = 0`, null buffer. -/
def SimpleVector.mkDefault : SimpleVector α :=
  ⟨0, 0, []⟩

/-- `SimpleVector(const ReserveProxyObj&)` (lines 36-39): size 0, capacity
`obj.GetCapacity()`, a fresh buffer of that many default slots. -/
def SimpleVector.mkReserve (obj : ReserveProxyObj) : SimpleVector α :=
  ⟨0, obj.GetCapacity, List.replicate obj.GetCapacity default⟩

/-- `SimpleVector(size_t size)` (lines 43-46): `size` default-constructed
elements (`std::generate` with `Type()`). -/
def SimpleVector.mkSize (size : Nat) : SimpleVector α :=
  ⟨size, size, List.replicate size default⟩

/-- `SimpleVector(size_t size, const Type& value)` (lines 50-53):
`size` copies of `value` (`std::fill`). -/
def SimpleVector.mkFill (size : Nat) (value : α) : SimpleVector α :=
  ⟨size, size, List.replicate size value⟩

/-- `SimpleVector(std::initializer_list<Type>)` (lines 64-67): buffer is a
copy of the list, size and capacity are its length. -/
def SimpleVector.mkInit (init : List α) : SimpleVector α :=
  ⟨init.length, init.length, init⟩

/-- `GetSize` (line 101). -/
def SimpleVector.GetSize (v : SimpleVector α) : Nat :=
  v.size_

/-- `GetCapacity` (line 106). -/
def SimpleVector.GetCapacity (v : SimpleVector α) : Nat :=
  v.capacity_

/-- `IsEmpty` (line 111). -/
def SimpleVector.IsEmpty (v : SimpleVector α) : Bool :=
  v.size_ == 0

/-- Unchecked `operator[]` (lines 116-125): dereferences slot `index` of the
buffer (defined only under the precondition `index < size_`). -/
def SimpleVector.get (v : SimpleVector α) (index : Nat) : α :=
  v.data_.getD index default

/-- The live elements, slots `[0, size_)` of the buffer. -/
def SimpleVector.elems (v : SimpleVector α) : List α :=
  v.data_.take v.size_

/-- `At(size_t index)` (lines 129-134): throws `std::out_of_range` when
`index >= size_`, otherwise returns the element at `index`. -/
def SimpleVector.At (v : SimpleVector α) (index : Nat) : Except String α :=
  if index ≥ v.size_ then Except.error "index out of range"
  else Except.ok (v.data_.getD index default)

/-- `Clear` (lines 146-148): `size_ = 0`, capacity and buffer untouched. -/
def SimpleVector.Clear (v : SimpleVector α) : SimpleVector α :=
  { v with size_ := 0 }

/-- `Reserve(new_capacity)` (lines 151-158): when `new_capacity > capacity_`
allocate a fresh buffer of `new_capacity` default slots, move the first
`size_` elements into it, swap buffers; otherwise do nothing. -/
def SimpleVector.Reserve (v : SimpleVector α) (new_capacity : Nat) : SimpleVector α :=
  if new_capacity > v.capacity_ then
    { size_ := v.size_, capacity_ := new_capacity,
      data_ := v.data_.take v.size_ ++ List.replicate (new_capacity - v.size_) default }
  else v

/-- `Resize(new_size)` (lines 162-177), three cases exactly as the source:
truncate; default-construct `[size_, new_size)` in place; or grow to
`max(new_size, capacity_ * 2)`, move the live elements, default-construct
the rest. -/
def SimpleVector.Resize (v : SimpleVector α) (new_size : Nat) : SimpleVector α :=
  if new_size ≤ v.size_ then
    { v with size_ := new_size }
  else if new_size ≤ v.capacity_ then
    { v with
      data_ := v.data_.take v.size_ ++ List.replicate (new_size - v.size_) default
                ++ v.data_.drop new_size,
      size_ := new_size }
  else
    let new_capacity := max new_size (v.capacity_ * 2)
    { size_ := new_size, capacity_ := new_capacity,
      data_ := v.data_.take v.size_ ++ List.replicate (new_capacity - v.size_) default }

/-- `PushBack(item)` (lines 182-211, copy and move overloads have identical
value semantics): when full, grow to `capacity_ * 2` (1 when capacity is 0),
move the live elements into the fresh buffer and write `item` at slot
`size_`; otherwise write `item` into slot `size_` in place. Then `++size_`. -/
def SimpleVector.PushBack (v : SimpleVector α) (item : α) : SimpleVector α :=
  if v.size_ == v.capacity_ then
    let new_capacity := if v.capacity_ == 0 then 1 else v.capacity_ * 2
    { size_ := v.size_ + 1, capacity_ := new_capacity,
      data_ := v.data_.take v.size_ ++ [item]
                ++ List.replicate (new_capacity - v.size_ - 1) default }
  else
    { v with data_ := v.data_.set v.size_ item, size_ := v.size_ + 1 }

/-- `Insert(pos, value)` (lines 218-257, copy and move overloads have
identical value semantics).  `pos` is the index `it = pos - data_.Get()`.
When full: fresh doubled buffer, copy `[0, it)`, write `value` at `it`,
copy `[it, size_)` shifted one slot right.  Otherwise `copy_backward`
shifts `[it, size_)` one slot right in place and `value` goes into slot
`it`.  Returns the new state and the returned iterator `data_.Get() + it`,
i.e. index `it`. -/
def SimpleVector.Insert (v : SimpleVector α) (pos : Nat) (value : α) :
    SimpleVector α × Nat :=
  if v.size_ == v.capacity_ then
    let new_capacity := if v.capacity_ == 0 then 1 else v.capacity_ * 2
    ({ size_ := v.size_ + 1, capacity_ := new_capacity,
       data_ := v.data_.take pos ++ [value] ++ (v.data_.take v.size_).drop pos
                 ++ List.replicate (new_capacity - v.size_ - 1) default }, pos)
  else
    ({ size_ := v.size_ + 1, capacity_ := v.capacity_,
       data_ := v.data_.take pos ++ [value] ++ (v.data_.take v.size_).drop pos
                 ++ v.data_.drop (v.size_ + 1) }, pos)

/-- `PopBack` (lines 260-263): `--size_` (precondition: non-empty). -/
def SimpleVector.PopBack (v : SimpleVector α) : SimpleVector α :=
  { v with size_ := v.size_ - 1 }

/-- `Erase(pos)` (lines 267-273): with `it = pos - data_.Get()`, move slots
`[it+1, size_)` one slot left, `--size_`, return iterator index `it`.
Slots from `size_ - 1` on keep their old contents. -/
def SimpleVector.Erase (v : SimpleVector α) (pos : Nat) : SimpleVector α × Nat :=
  ({ v with
     data_ := v.data_.take pos ++ (v.data_.take v.size_).drop (pos + 1)
               ++ v.data_.drop (v.size_ - 1),
     size_ := v.size_ - 1 }, pos)

/-- `swap(other)` (lines 276-280): exchange `size_`, `capacity_` and buffer
ownership; returns (new `*this*`, new `other`). -/
def SimpleVector.swap (v other : SimpleVector α) : SimpleVector α × SimpleVector α :=
  (other, v)

/-- Copy constructor (lines 70-74): build `tmp_vector(other.GetSize())`
(capacity = size, fresh default buffer), `std::copy` the live elements into
it, then swap it with `*this*`. -/
def SimpleVector.copyCtor (other : SimpleVector α) : SimpleVector α :=
  ⟨other.size_, other.size_, other.data_.take other.size_⟩

/-- Move constructor (lines 77-79): default-construct `*this*` then
`swap(other)`; returns (new vector, moved-from `other`). -/
def SimpleVector.moveCtor (other : SimpleVector α) :
    SimpleVector α × SimpleVector α :=
  (other, SimpleVector.mkDefault)

/-- Copy assignment (lines 82-88): if `this != &rhs` (flag `sameObject`
false), copy-and-swap — `*this*` becomes a deep copy of `rhs`; on
self-assignment the guarded body is skipped and `*this*` is returned
unchanged. -/
def SimpleVector.copyAssign (lhs rhs : SimpleVector α) (sameObject : Bool) :
    SimpleVector α :=
  if sameObject then lhs else SimpleVector.copyCtor rhs

/-- Move assignment (lines 91-98): if `this != &rhs`, move `rhs`'s buffer,
size and capacity into `*this*`; on self-assignment the guarded body is
skipped and `*this*` is returned unchanged. -/
def SimpleVector.moveAssign (lhs rhs : SimpleVector α) (sameObject : Bool) :
    SimpleVector α :=
  if sameObject then lhs else rhs

/-- `operator==` (lines 323-326): same size and `std::equal` over the first
`lhs.GetSize()` slots of both buffers. -/
def SimpleVector.beq [BEq α] (lhs rhs : SimpleVector α) : Bool :=
  lhs.GetSize == rhs.GetSize
    && (lhs.data_.take lhs.size_ == rhs.data_.take lhs.size_)

end SimpleVec

/-! ### Preservation of the container invariant -/

namespace SimpleVec

variable {α : Type} [Inhabited α]

theorem SimpleVector.wf_mkDefault : (SimpleVector.mkDefault : SimpleVector α).Wf := by
  simp [SimpleVector.Wf, SimpleVector.mkDefault]

theorem SimpleVector.wf_mkReserve (obj : ReserveProxyObj) :
    (SimpleVector.mkReserve obj : SimpleVector α).Wf := by
  simp [SimpleVector.Wf, SimpleVector.mkReserve]

theorem SimpleVector.wf_mkSize (n : Nat) : (SimpleVector.mkSize n : SimpleVector α).Wf := by
  simp [SimpleVector.Wf, SimpleVector.mkSize]

theorem SimpleVector.wf_mkFill (n : Nat) (x : α) : (SimpleVector.mkFill n x).Wf := by
  simp [SimpleVector.Wf, SimpleVector.mkFill]

theorem SimpleVector.wf_mkInit (l : List α) : (SimpleVector.mkInit l).Wf := by
  simp [SimpleVector.Wf, SimpleVector.mkInit]

theorem SimpleVector.wf_copyCtor (v : SimpleVector α) (h : v.Wf) :
    (SimpleVector.copyCtor v).Wf := by
  obtain ⟨h1, h2⟩ := h
  simp [SimpleVector.Wf, SimpleVector.copyCtor]
  omega

theorem SimpleVector.wf_Clear (v : SimpleVector α) (h : v.Wf) : v.Clear.Wf := by
  obtain ⟨h1, h2⟩ := h
  exact ⟨Nat.zero_le _, h2⟩

theorem SimpleVector.wf_PopBack (v : SimpleVector α) (h : v.Wf) : v.PopBack.Wf := by
  obtain ⟨h1, h2⟩ := h
  exact ⟨Nat.le_trans (Nat.sub_le _ _) h1, h2⟩

theorem SimpleVector.wf_Reserve (v : SimpleVector α) (n : Nat) (h : v.Wf) :
    (v.Reserve n).Wf := by
  obtain ⟨h1, h2⟩ := h
  unfold SimpleVector.Wf SimpleVector.Reserve
  split
  · next hgt =>
    dsimp only
    simp only [List.length_append, List.length_take, List.length_replicate]
    omega
  · exact ⟨h1, h2⟩

theorem SimpleVector.wf_Resize (v : SimpleVector α) (n : Nat) (h : v.Wf) :
    (v.Resize n).Wf := by
  obtain ⟨h1, h2⟩ := h
  unfold SimpleVector.Wf SimpleVector.Resize
  split
  · next hle =>
    dsimp only
    omega
  · next hgt =>
    split
    · next hcap =>
      dsimp only
      simp only [List.length_append, List.length_take, List.length_replicate,
        List.length_drop]
      omega
    · next hcap =>
      dsimp only
      simp only [List.length_append, List.length_take, List.length_replicate]
      omega

theorem SimpleVector.wf_PushBack (v : SimpleVector α) (x : α) (h : v.Wf) :
    (v.PushBack x).Wf := by
  obtain ⟨h1, h2⟩ := h
  unfold SimpleVector.Wf SimpleVector.PushBack
  split
  · next hfull =>
    rw [beq_iff_eq] at hfull
    by_cases hc : v.capacity_ = 0 <;>
      simp_all [List.length_append, List.length_take, List.length_replicate] <;>
      omega
  · next hfull =>
    rw [beq_iff_eq] at hfull
    dsimp only
    simp only [List.length_set]
    omega

theorem SimpleVector.wf_Insert (v : SimpleVector α) (pos : Nat) (x : α)
    (h : v.Wf) (hpos : pos ≤ v.size_) : (v.Insert pos x).1.Wf := by
  obtain ⟨h1, h2⟩ := h
  unfold SimpleVector.Wf SimpleVector.Insert
  split
  · next hfull =>
    rw [beq_iff_eq] at hfull
    by_cases hc : v.capacity_ = 0 <;>
      simp_all [List.length_append, List.length_take, List.length_replicate,
        List.length_drop] <;>
      omega
  · next hfull =>
    rw [beq_iff_eq] at hfull
    dsimp only
    simp only [List.length_append, List.length_take, List.length_cons,
      List.length_nil, List.length_drop]
    omega

theorem SimpleVector.wf_Erase (v : SimpleVector α) (pos : Nat)
    (h : v.Wf) (hpos : pos < v.size_) : (v.Erase pos).1.Wf := by
  obtain ⟨h1, h2⟩ := h
  unfold SimpleVector.Wf SimpleVector.Erase
  dsimp only
  refine ⟨by omega, ?_⟩
  simp only [List.length_append, List.length_take, List.length_drop]
  omega

/-- All the well-formedness facts claim C1 asserts, over sequences `v`, `w`,
an aliasing flag `b`, list `l`, sizes/indices `n x i j`. -/
def WfAfterEveryOp (v w : SimpleVector Nat) (b : Bool) (l : List Nat)
    (n x i j : Nat) : Prop :=
  (SimpleVector.mkDefault : SimpleVector Nat).Wf
  ∧ (SimpleVector.mkReserve (mkReserveProxy n) : SimpleVector Nat).Wf
  ∧ (SimpleVector.mkSize n : SimpleVector Nat).Wf
  ∧ (SimpleVector.mkFill n x).Wf
  ∧ (SimpleVector.mkInit l).Wf
  ∧ (SimpleVector.copyCtor v).Wf
  ∧ (SimpleVector.moveCtor v).1.Wf
  ∧ (SimpleVector.moveCtor v).2.Wf
  ∧ (SimpleVector.copyAssign v w b).Wf
  ∧ (SimpleVector.moveAssign v w b).Wf
  ∧ (v.Reserve n).Wf
  ∧ (v.Resize n).Wf
  ∧ (v.PushBack x).Wf
  ∧ (v.Insert i x).1.Wf
  ∧ (v.Erase j).1.Wf
  ∧ v.PopBack.Wf
  ∧ v.Clear.Wf
  ∧ (v.swap w).1.Wf
  ∧ (v.swap w).2.Wf

/-- Claim C1: for every sequence and every public operation (construction,
copy/move, reserve, resize, pushBack, insert, erase, popBack, clear, swap),
the resulting sequence satisfies `length ≤ capacity` (together with the
buffer-shape half of the representation invariant). -/
theorem C1_length_le_capacity (v w : SimpleVector Nat) (b : Bool)
    (l : List Nat) (n x i j : Nat) (hv : v.Wf) (hw : w.Wf)
    (hi : i ≤ v.size_) (hj : j < v.size_) :
    WfAfterEveryOp v w b l n x i j := by
  refine ⟨SimpleVector.wf_mkDefault, SimpleVector.wf_mkReserve _,
    SimpleVector.wf_mkSize _, SimpleVector.wf_mkFill _ _, SimpleVector.wf_mkInit _,
    SimpleVector.wf_copyCtor _ hv, hv, SimpleVector.wf_mkDefault, ?_, ?_,
    SimpleVector.wf_Reserve _ _ hv, SimpleVector.wf_Resize _ _ hv,
    SimpleVector.wf_PushBack _ _ hv, SimpleVector.wf_Insert _ _ _ hv hi,
    SimpleVector.wf_Erase _ _ hv hj, SimpleVector.wf_PopBack _ hv,
    SimpleVector.wf_Clear _ hv, hw, hv⟩
  · unfold SimpleVector.copyAssign
    split
    · exact hv
    · exact SimpleVector.wf_copyCtor _ hw
  · unfold SimpleVector.moveAssign
    split
    · exact hv
    · exact hw

/-- Witness for C1 at concrete inputs. -/
theorem C1_length_le_capacity_witness :
    WfAfterEveryOp (SimpleVector.mkInit [5, 7]) SimpleVector.mkDefault false
      [1, 2] 3 9 1 1 :=
  C1_length_le_capacity (SimpleVector.mkInit [5, 7]) SimpleVector.mkDefault
    false [1, 2] 3 9 1 1 (by decide) (by decide) (by decide) (by decide)

end SimpleVec

/-! ### Element-level behavior of the mutators -/

namespace SimpleVec

variable {α : Type} [Inhabited α]

theorem getD_append_cons (l r : List α) (x : α) (i : Nat) (d : α)
    (h : l.length = i) : (l ++ x :: r).getD i d = x := by
  subst h
  rw [List.getD_eq_getElem?_getD, List.getElem?_append_right (Nat.le_refl _)]
  simp

theorem SimpleVector.size_PushBack (v : SimpleVector α) (x : α) :
    (v.PushBack x).size_ = v.size_ + 1 := by
  unfold SimpleVector.PushBack
  split <;> rfl

theorem SimpleVector.capacity_PushBack_full (v : SimpleVector α) (x : α)
    (h : v.size_ = v.capacity_) :
    (v.PushBack x).capacity_ = if v.capacity_ = 0 then 1 else v.capacity_ * 2 := by
  unfold SimpleVector.PushBack
  simp [h]

theorem SimpleVector.capacity_PushBack_not_full (v : SimpleVector α) (x : α)
    (h : v.size_ ≠ v.capacity_) :
    (v.PushBack x).capacity_ = v.capacity_ := by
  unfold SimpleVector.PushBack
  simp [h]

theorem SimpleVector.elems_PushBack (v : SimpleVector α) (x : α) (h : v.Wf) :
    (v.PushBack x).elems = v.elems ++ [x] := by
  obtain ⟨h1, h2⟩ := h
  unfold SimpleVector.elems SimpleVector.PushBack
  split
  · next hfull =>
    rw [beq_iff_eq] at hfull
    dsimp only
    exact List.take_left' (by
      simp only [List.length_append, List.length_take, List.length_cons,
        List.length_nil]
      omega)
  · next hfull =>
    rw [beq_iff_eq] at hfull
    dsimp only
    rw [List.set_eq_take_cons_drop x (by omega), ← List.singleton_append,
      ← List.append_assoc]
    exact List.take_left' (by
      simp only [List.length_append, List.length_take, List.length_cons,
        List.length_nil]
      omega)

/-- What claim C2 asserts: `PushBack` appends `x`, increments the size, and
doubles the capacity exactly when the vector was full (floor 1 from
capacity 0); pushing `1..5` into an empty vector gives size 5, elements
`[1,2,3,4,5]`, and the capacity trace `1, 2, 4, 4, 8`. -/
def PushBackClaim (v : SimpleVector Nat) (x : Nat) : Prop :=
  (v.PushBack x).size_ = v.size_ + 1
  ∧ (v.PushBack x).elems = v.elems ++ [x]
  ∧ (v.size_ = v.capacity_ →
      (v.PushBack x).capacity_ = (if v.capacity_ = 0 then 1 else v.capacity_ * 2))
  ∧ (v.size_ ≠ v.capacity_ → (v.PushBack x).capacity_ = v.capacity_)
  ∧ (List.foldl SimpleVector.PushBack SimpleVector.mkDefault
      [1, 2, 3, 4, 5]).GetSize = 5
  ∧ (List.foldl SimpleVector.PushBack SimpleVector.mkDefault
      [1, 2, 3, 4, 5]).elems = [1, 2, 3, 4, 5]
  ∧ (List.range 5).map
      (fun k => (List.foldl SimpleVector.PushBack SimpleVector.mkDefault
        (List.take (k + 1) [1, 2, 3, 4, 5])).GetCapacity) = [1, 2, 4, 4, 8]

/-- Claim C2: `pushBack(value)` appends one element at the end and
increments the length by one; when full, the capacity doubles (floor 1 from
capacity 0) and the elements are relocated in order; pushing `1..N` into an
empty sequence yields size N, elements `[1..N]` in order, capacities
following the doubling sequence. -/
theorem C2_pushBack (v : SimpleVector Nat) (x : Nat) (h : v.Wf) :
    PushBackClaim v x := by
  refine ⟨SimpleVector.size_PushBack v x, SimpleVector.elems_PushBack v x h,
    SimpleVector.capacity_PushBack_full v x, SimpleVector.capacity_PushBack_not_full v x,
    by decide, by decide, by decide⟩

/-- Witness for C2 at a concrete input. -/
theorem C2_pushBack_witness : PushBackClaim (SimpleVector.mkInit [4, 5]) 7 :=
  C2_pushBack (SimpleVector.mkInit [4, 5]) 7 (by decide)

/-- What claim C3 asserts: the three-way `Resize` policy, and the concrete
truncate/regrow example. -/
def ResizeClaim (v : SimpleVector Nat) (n : Nat) : Prop :=
  (n ≤ v.size_ →
    (v.Resize n).size_ = n ∧ (v.Resize n).capacity_ = v.capacity_
      ∧ (v.Resize n).data_ = v.data_)
  ∧ (v.size_ < n → n ≤ v.capacity_ →
    (v.Resize n).size_ = n ∧ (v.Resize n).capacity_ = v.capacity_
      ∧ (v.Resize n).elems = v.elems ++ List.replicate (n - v.size_) (default : Nat))
  ∧ (v.capacity_ < n →
    (v.Resize n).size_ = n ∧ (v.Resize n).capacity_ = max n (v.capacity_ * 2)
      ∧ (v.Resize n).elems = v.elems ++ List.replicate (n - v.size_) (default : Nat))
  ∧ (((SimpleVector.mkInit [1, 2, 3, 4]).Resize 0).Resize 3).elems
      = List.replicate 3 (default : Nat)

/-- Claim C3: `resize(newSize)` truncates logically when `newSize ≤ length`
(capacity and stored slots unchanged); default-constructs the new slots when
`length < newSize ≤ capacity`; grows the capacity to
`max(newSize, capacity*2)` keeping the prefix and default-constructing the
rest when `newSize > capacity`; `resize(0)` then `resize(3)` on `[1,2,3,4]`
yields three default values. -/
theorem C3_resize (v : SimpleVector Nat) (n : Nat) (h : v.Wf) :
    ResizeClaim v n := by
  obtain ⟨h1, h2⟩ := h
  refine ⟨?_, ?_, ?_, by decide⟩
  · intro hle
    unfold SimpleVector.Resize
    rw [if_pos hle]
    exact ⟨rfl, rfl, rfl⟩
  · intro hgt hcap
    unfold SimpleVector.Resize
    rw [if_neg (by omega), if_pos hcap]
    refine ⟨rfl, rfl, ?_⟩
    unfold SimpleVector.elems
    dsimp only
    exact List.take_left' (by
      simp only [List.length_append, List.length_take, List.length_replicate]
      omega)
  · intro hcap
    unfold SimpleVector.Resize
    rw [if_neg (by omega), if_neg (by omega)]
    refine ⟨rfl, rfl, ?_⟩
    unfold SimpleVector.elems
    dsimp only
    rw [List.take_append_eq_append_take, List.take_take, List.take_replicate]
    congr 1
    · congr 1
      omega
    · congr 1
      simp only [List.length_take]
      omega

/-- Witness for C3 at a concrete input. -/
theorem C3_resize_witness : ResizeClaim (SimpleVector.mkInit [1, 2, 3, 4]) 6 :=
  C3_resize (SimpleVector.mkInit [1, 2, 3, 4]) 6 (by decide)

end SimpleVec

/-! ### Insert and Erase -/

namespace SimpleVec

variable {α : Type} [Inhabited α]

theorem SimpleVector.size_Insert (v : SimpleVector α) (pos : Nat) (x : α) :
    (v.Insert pos x).1.size_ = v.size_ + 1 := by
  unfold SimpleVector.Insert
  split <;> rfl

theorem SimpleVector.snd_Insert (v : SimpleVector α) (pos : Nat) (x : α) :
    (v.Insert pos x).2 = pos := by
  unfold SimpleVector.Insert
  split <;> rfl

theorem SimpleVector.capacity_Insert_full (v : SimpleVector α) (pos : Nat) (x : α)
    (h : v.size_ = v.capacity_) :
    (v.Insert pos x).1.capacity_ = if v.capacity_ = 0 then 1 else v.capacity_ * 2 := by
  unfold SimpleVector.Insert
  simp [h]

theorem SimpleVector.capacity_Insert_not_full (v : SimpleVector α) (pos : Nat) (x : α)
    (h : v.size_ ≠ v.capacity_) :
    (v.Insert pos x).1.capacity_ = v.capacity_ := by
  unfold SimpleVector.Insert
  simp [h]

theorem SimpleVector.elems_Insert (v : SimpleVector α) (pos : Nat) (x : α)
    (h : v.Wf) (hpos : pos ≤ v.size_) :
    (v.Insert pos x).1.elems = v.elems.take pos ++ [x] ++ v.elems.drop pos := by
  obtain ⟨h1, h2⟩ := h
  have htp : (v.data_.take v.size_).take pos = v.data_.take pos := by
    rw [List.take_take]
    congr 1
    omega
  unfold SimpleVector.elems SimpleVector.Insert
  split
  all_goals
    dsimp only
    rw [htp]
    exact List.take_left' (by
      simp only [List.length_append, List.length_take, List.length_cons,
        List.length_nil, List.length_drop]
      omega)

theorem SimpleVector.get_Insert_at_ret (v : SimpleVector α) (pos : Nat) (x : α)
    (h : v.Wf) (hpos : pos ≤ v.size_) :
    (v.Insert pos x).1.get (v.Insert pos x).2 = x := by
  obtain ⟨h1, h2⟩ := h
  unfold SimpleVector.get SimpleVector.Insert
  split
  all_goals
    dsimp only
    rw [List.append_assoc, List.append_assoc, List.singleton_append]
    exact getD_append_cons _ _ _ _ _ (by
      simp only [List.length_take]
      omega)

/-- What claim C4 asserts: `Insert` at a position in `[0, size]` inserts
before that position, preserves the order of the other elements, increments
the size, returns the inserted element's index, and doubles the capacity
exactly when full; with the concrete `[1,2,3]` example. -/
def InsertClaim (v : SimpleVector Nat) (pos x : Nat) : Prop :=
  (v.Insert pos x).1.size_ = v.size_ + 1
  ∧ (v.Insert pos x).1.elems = v.elems.take pos ++ [x] ++ v.elems.drop pos
  ∧ (v.Insert pos x).2 = pos
  ∧ (v.Insert pos x).1.get (v.Insert pos x).2 = x
  ∧ (v.size_ = v.capacity_ →
      (v.Insert pos x).1.capacity_ = (if v.capacity_ = 0 then 1 else v.capacity_ * 2))
  ∧ (v.size_ ≠ v.capacity_ → (v.Insert pos x).1.capacity_ = v.capacity_)
  ∧ ((SimpleVector.mkInit [1, 2, 3]).Insert 1 99).1.elems = [1, 99, 2, 3]
  ∧ ((SimpleVector.mkInit [1, 2, 3]).Insert 1 99).2 = 1
  ∧ ((SimpleVector.mkInit [1, 2, 3]).Insert 1 99).1.get 1 = 99

/-- Claim C4: `insert(position, value)`, for every position in
`[begin, end]`, inserts the value before that position (append when at
end), preserves the relative order of the other elements, increments the
length, and returns an iterator to the inserted element; when full the
capacity doubles (floor 1 from capacity 0). -/
theorem C4_insert (v : SimpleVector Nat) (pos x : Nat) (h : v.Wf)
    (hpos : pos ≤ v.size_) : InsertClaim v pos x :=
  ⟨SimpleVector.size_Insert v pos x, SimpleVector.elems_Insert v pos x h hpos,
    SimpleVector.snd_Insert v pos x, SimpleVector.get_Insert_at_ret v pos x h hpos,
    SimpleVector.capacity_Insert_full v pos x,
    SimpleVector.capacity_Insert_not_full v pos x,
    by decide, by decide, by decide⟩

/-- Witness for C4 at a concrete input. -/
theorem C4_insert_witness : InsertClaim (SimpleVector.mkInit [1, 2, 3]) 1 99 :=
  C4_insert (SimpleVector.mkInit [1, 2, 3]) 1 99 (by decide) (by decide)

theorem SimpleVector.elems_length (v : SimpleVector α)
    (h : v.size_ ≤ v.data_.length) : v.elems.length = v.size_ := by
  unfold SimpleVector.elems
  simp only [List.length_take]
  omega

theorem SimpleVector.elems_Erase (v : SimpleVector α) (pos : Nat)
    (h : v.Wf) (hpos : pos < v.size_) :
    (v.Erase pos).1.elems = v.elems.take pos ++ v.elems.drop (pos + 1) := by
  obtain ⟨h1, h2⟩ := h
  have htp : (v.data_.take v.size_).take pos = v.data_.take pos := by
    rw [List.take_take]
    congr 1
    omega
  unfold SimpleVector.elems SimpleVector.Erase
  dsimp only
  rw [htp]
  exact List.take_left' (by
    simp only [List.length_append, List.length_take, List.length_drop]
    omega)

theorem SimpleVector.get_eq_elems_getD (v : SimpleVector α) (i : Nat)
    (hi : i < v.size_) : v.get i = v.elems.getD i default := by
  unfold SimpleVector.get SimpleVector.elems
  rw [List.getD_eq_getElem?_getD, List.getD_eq_getElem?_getD,
    List.getElem?_take, if_pos hi]

/-- What claim C5 asserts: `Erase` at a position in `[0, size)` removes that
element by shifting the suffix left, decrements the size, and returns an
iterator to the element that followed (the new end when the last element
was erased); with the concrete `[1,2,3]` example. -/
def EraseClaim (v : SimpleVector Nat) (pos : Nat) : Prop :=
  (v.Erase pos).1.size_ = v.size_ - 1
  ∧ (v.Erase pos).1.capacity_ = v.capacity_
  ∧ (v.Erase pos).1.elems = v.elems.take pos ++ v.elems.drop (pos + 1)
  ∧ (v.Erase pos).2 = pos
  ∧ (pos + 1 < v.size_ → (v.Erase pos).1.get ((v.Erase pos).2) = v.get (pos + 1))
  ∧ (pos = v.size_ - 1 → (v.Erase pos).2 = (v.Erase pos).1.size_)
  ∧ ((SimpleVector.mkInit [1, 2, 3]).Erase 0).1.elems = [2, 3]
  ∧ ((SimpleVector.mkInit [1, 2, 3]).Erase 0).2 = 0
  ∧ ((SimpleVector.mkInit [1, 2, 3]).Erase 0).1.get 0 = 2

/-- Claim C5: `erase(position)`, for every non-empty sequence and every
position in `[begin, end)`, removes the element at that position by
shifting the suffix left by one slot, decrements the length, and returns an
iterator to the element that followed the erased one (`end()` when the last
element was erased). -/
theorem C5_erase (v : SimpleVector Nat) (pos : Nat) (h : v.Wf)
    (hpos : pos < v.size_) : EraseClaim v pos := by
  have h1 := h.1
  have h2 := h.2
  refine ⟨rfl, rfl, SimpleVector.elems_Erase v pos h hpos, rfl, ?_, ?_,
    by decide, by decide, by decide⟩
  · intro hnext
    have hlen : v.elems.length = v.size_ := SimpleVector.elems_length v (by omega)
    rw [show (v.Erase pos).2 = pos from rfl]
    rw [SimpleVector.get_eq_elems_getD _ _ (by dsimp only [SimpleVector.Erase]; omega),
      SimpleVector.get_eq_elems_getD _ _ (by omega)]
    rw [SimpleVector.elems_Erase v pos h hpos]
    rw [List.drop_eq_getElem_cons (by omega)]
    rw [getD_append_cons _ _ _ _ _ (by simp only [List.length_take]; omega)]
    rw [List.getD_eq_getElem _ _ (by omega)]
  · intro hlast
    dsimp only [SimpleVector.Erase]
    omega

/-- Witness for C5 at a concrete input. -/
theorem C5_erase_witness : EraseClaim (SimpleVector.mkInit [1, 2, 3]) 0 :=
  C5_erase (SimpleVector.mkInit [1, 2, 3]) 0 (by decide) (by decide)

end SimpleVec

/-! ### Reserve, At, copies, self-assignment -/

namespace SimpleVec

variable {α : Type} [Inhabited α]

theorem SimpleVector.Reserve_gt (v : SimpleVector α) (k : Nat) (h : v.Wf)
    (hk : v.capacity_ < k) :
    (v.Reserve k).capacity_ = k ∧ (v.Reserve k).size_ = v.size_
      ∧ (v.Reserve k).elems = v.elems := by
  obtain ⟨h1, h2⟩ := h
  unfold SimpleVector.Reserve
  rw [if_pos hk]
  refine ⟨rfl, rfl, ?_⟩
  unfold SimpleVector.elems
  dsimp only
  exact List.take_left' (by
    simp only [List.length_take]
    omega)

theorem SimpleVector.Reserve_le (v : SimpleVector α) (k : Nat)
    (hk : k ≤ v.capacity_) : v.Reserve k = v := by
  unfold SimpleVector.Reserve
  rw [if_neg (by omega)]

theorem SimpleVector.foldl_PushBack_no_realloc (xs : List α) (w : SimpleVector α)
    (h : w.Wf) (hroom : w.size_ + xs.length ≤ w.capacity_) :
    (List.foldl SimpleVector.PushBack w xs).capacity_ = w.capacity_
      ∧ (List.foldl SimpleVector.PushBack w xs).size_ = w.size_ + xs.length
      ∧ (List.foldl SimpleVector.PushBack w xs).Wf := by
  induction xs generalizing w with
  | nil => exact ⟨rfl, rfl, h⟩
  | cons x xs ih =>
    have hne : w.size_ ≠ w.capacity_ := by
      simp only [List.length_cons] at hroom
      omega
    have hcap := SimpleVector.capacity_PushBack_not_full w x hne
    have hsz := SimpleVector.size_PushBack w x
    have hwf := SimpleVector.wf_PushBack w x h
    obtain ⟨c1, c2, c3⟩ := ih (w.PushBack x) hwf (by
      rw [hcap, hsz]
      simp only [List.length_cons] at hroom
      omega)
    refine ⟨by rw [List.foldl_cons, c1, hcap], ?_, by rw [List.foldl_cons]; exact c3⟩
    rw [List.foldl_cons, c2, hsz]
    simp only [List.length_cons]
    omega

/-- What the amended claim C6 asserts: `Reserve` grows the capacity to
exactly `k` when `k > capacity` (size and elements unchanged), is a no-op
otherwise and never shrinks; and when the starting capacity is at most `k`
and `length + N ≤ k`, `reserve(k)` followed by the `N` pushes of `xs` never
reallocates — the capacity stays `k`. -/
def ReserveClaim (v : SimpleVector Nat) (k : Nat) (xs : List Nat) : Prop :=
  (v.capacity_ < k →
    (v.Reserve k).capacity_ = k ∧ (v.Reserve k).size_ = v.size_
      ∧ (v.Reserve k).elems = v.elems)
  ∧ (k ≤ v.capacity_ → v.Reserve k = v)
  ∧ v.capacity_ ≤ (v.Reserve k).capacity_
  ∧ (v.capacity_ ≤ k → v.size_ + xs.length ≤ k →
      (List.foldl SimpleVector.PushBack (v.Reserve k) xs).GetCapacity = k)

/-- Amended claim C6: `reserve(newCapacity)` sets the capacity to exactly
`newCapacity` when it exceeds the current capacity, leaving length and
elements unchanged, and is a no-op otherwise (never shrinking); and for
every sequence whose capacity is at most `k`, `reserve(k)` followed by `N`
pushBacks with `length + N ≤ k` never reallocates: the capacity stays `k`.
(The claim's unconditional version over every sequence and every `N ≤ k`
is refuted by `C6_reserve_counterexample`.) -/
theorem C6_reserve_amended (v : SimpleVector Nat) (k : Nat) (xs : List Nat)
    (h : v.Wf) : ReserveClaim v k xs := by
  have h1 := h.1
  have h2 := h.2
  refine ⟨fun hk => SimpleVector.Reserve_gt v k h hk, fun hk =>
    SimpleVector.Reserve_le v k hk, ?_, ?_⟩
  · by_cases hk : v.capacity_ < k
    · rw [(SimpleVector.Reserve_gt v k h hk).1]
      omega
    · rw [SimpleVector.Reserve_le v k (by omega)]
  · intro hck hroom
    by_cases hk : v.capacity_ < k
    · obtain ⟨r1, r2, _⟩ := SimpleVector.Reserve_gt v k h hk
      have hwf := SimpleVector.wf_Reserve v k h
      have := SimpleVector.foldl_PushBack_no_realloc xs (v.Reserve k) hwf
        (by rw [r1, r2]; omega)
      unfold SimpleVector.GetCapacity
      rw [this.1, r1]
    · rw [SimpleVector.Reserve_le v k (by omega)]
      have hkc : v.capacity_ = k := by omega
      have := SimpleVector.foldl_PushBack_no_realloc xs v h (by omega)
      unfold SimpleVector.GetCapacity
      rw [this.1, hkc]

/-- Counterexample to claim C6 as stated: on the sequence `[1]` (length 1,
capacity 1) with `k = 1`, `reserve(1)` followed by `N = 1 ≤ k` pushBacks
does reallocate — the capacity becomes 2, not `k = 1`. -/
theorem C6_reserve_counterexample :
    (1 : Nat) ≤ 1
      ∧ (((SimpleVector.mkInit [1]).Reserve 1).PushBack 2).GetCapacity ≠ 1 := by
  decide

/-- Witness for the amended C6 at a concrete input. -/
theorem C6_reserve_amended_witness :
    ReserveClaim (SimpleVector.mkInit [1]) 3 [2, 3] :=
  C6_reserve_amended (SimpleVector.mkInit [1]) 3 [2, 3] (by decide)

/-- What claim C7 asserts about checked access `At`. -/
def AtClaim (v : SimpleVector Nat) (i : Nat) : Prop :=
  (v.At i = Except.error "index out of range" ↔ v.size_ ≤ i)
  ∧ (i < v.size_ → v.At i = Except.ok (v.elems.getD i default))
  ∧ v.At v.size_ = Except.error "index out of range"
  ∧ (0 < v.size_ → v.At (v.size_ - 1)
      = Except.ok (v.elems.getD (v.size_ - 1) default))

/-- Claim C7: `at(index)` signals the out-of-range error if and only if
`index ≥ length`, and otherwise returns the element at that index;
`at(length)` always signals the error and `at(length-1)` always succeeds on
non-empty sequences. -/
theorem C7_at (v : SimpleVector Nat) (i : Nat) (h : v.Wf) : AtClaim v i := by
  have h1 := h.1
  have h2 := h.2
  have hok : ∀ j, j < v.size_ → v.At j = Except.ok (v.elems.getD j default) := by
    intro j hj
    unfold SimpleVector.At
    rw [if_neg (by omega)]
    rw [show v.data_.getD j default = v.get j from rfl,
      SimpleVector.get_eq_elems_getD v j hj]
  refine ⟨?_, hok i, ?_, fun hpos => hok (v.size_ - 1) (by omega)⟩
  · unfold SimpleVector.At
    split
    · next hge => simpa using hge
    · next hlt =>
      constructor
      · intro hc
        simp at hc
      · intro hle
        omega
  · unfold SimpleVector.At
    rw [if_pos (Nat.le_refl _)]

/-- Witness for C7 at a concrete input. -/
theorem C7_at_witness : AtClaim (SimpleVector.mkInit [1, 2, 3]) 1 :=
  C7_at (SimpleVector.mkInit [1, 2, 3]) 1 (by decide)

/-- What claim C8 asserts: a copy (construction, and assignment via
copy-and-swap) has the same length and the same elements — `copy == original`
holds — and is independent: it owns a fresh buffer holding exactly the live
elements, and mutating the copy acts on that separate value only (the
original is a distinct, untouched value in this embedding). -/
def CopyClaim (v w : SimpleVector Nat) (x : Nat) : Prop :=
  (SimpleVector.copyCtor v).GetSize = v.GetSize
  ∧ (SimpleVector.copyCtor v).elems = v.elems
  ∧ SimpleVector.beq (SimpleVector.copyCtor v) v = true
  ∧ SimpleVector.copyAssign w v false = SimpleVector.copyCtor v
  ∧ SimpleVector.beq (SimpleVector.copyAssign w v false) v = true
  ∧ (SimpleVector.copyCtor v).capacity_ = v.size_
  ∧ ((SimpleVector.copyCtor v).PushBack x).elems = v.elems ++ [x]

/-- Claim C8: copying a sequence produces an independent sequence of
identical length, element-wise equal to the original; mutating the copy
leaves the original unchanged (the copy owns a fresh buffer). -/
theorem C8_copy (v w : SimpleVector Nat) (x : Nat) (h : v.Wf) :
    CopyClaim v w x := by
  have h1 := h.1
  have h2 := h.2
  have helems : (SimpleVector.copyCtor v).elems = v.elems := by
    unfold SimpleVector.elems SimpleVector.copyCtor
    dsimp only
    rw [List.take_take]
    congr 1
    omega
  have hbeq : SimpleVector.beq (SimpleVector.copyCtor v) v = true := by
    unfold SimpleVector.beq SimpleVector.GetSize SimpleVector.copyCtor
    dsimp only
    rw [List.take_take]
    simp
  refine ⟨rfl, helems, hbeq, rfl, hbeq, rfl, ?_⟩
  rw [SimpleVector.elems_PushBack _ x (SimpleVector.wf_copyCtor v h), helems]

/-- Witness for C8 at a concrete input. -/
theorem C8_copy_witness :
    CopyClaim (SimpleVector.mkInit [1, 2, 3]) SimpleVector.mkDefault 9 :=
  C8_copy (SimpleVector.mkInit [1, 2, 3]) SimpleVector.mkDefault 9 (by decide)

/-- Claim C9: constructing through the reserve-capacity tagged option
(`Reserve(n)` then the `ReserveProxyObj` constructor) yields length 0 and
capacity exactly `n`. -/
theorem C9_makeWithReservedCapacity (n : Nat) :
    (SimpleVector.mkReserve (mkReserveProxy n) : SimpleVector Nat).GetSize = 0
    ∧ (SimpleVector.mkReserve (mkReserveProxy n) : SimpleVector Nat).GetCapacity = n
    ∧ (SimpleVector.mkReserve (mkReserveProxy n) : SimpleVector Nat).Wf :=
  ⟨rfl, rfl, SimpleVector.wf_mkReserve _⟩

/-- Claim C10: assigning a sequence to itself — copy assignment or move
assignment with source and destination the same object, so the `this != &rhs`
guard fails — leaves the sequence unchanged: same length, capacity and
elements. -/
theorem C10_self_assignment (v : SimpleVector Nat) :
    SimpleVector.copyAssign v v true = v
      ∧ SimpleVector.moveAssign v v true = v := by
  unfold SimpleVector.copyAssign SimpleVector.moveAssign
  exact ⟨rfl, rfl⟩

end SimpleVec
